import Mathlib

/-!
Verification of the response-normalization core of `nba-api`, a typed
TypeScript client for the NBA statistics web service.

The JavaScript runtime values flowing through the normalization layer are
modelled by the inductive type `Jv`; JS objects are association lists in
insertion order with unique keys, property assignment is `setKey`, and
out-of-bounds array indexing yields `Jv.undef` exactly as in JS.

Embedded functions (from `src/utils.ts`, `src/schemas.ts`, `src/api.ts`):
`normalizeResultSet`, `normalizeResponse`, `toCamelCase`, `normalizeKeys`,
`parseArraySafe`, `normalizeV3PlayerStats`, the identifier validators
(`validatePlayerId`, `validateTeamId`, `validateGameId`, `validateDate`,
`validateSeason`), the query assembly of `buildStatsUrl` / `fetchStats`,
and the post-fetch result handling of `getCommonPlayerInfo`,
`getTeamInfoCommon` and `getBoxScoreTraditional`.
-/

set_option maxRecDepth 8192

/-- A JavaScript runtime value.  `undef` is JS `undefined` (produced e.g.
by out-of-bounds array indexing or a missing property); `null` is JSON
null.  Numbers are modelled as integers: every numeric value reaching the
modelled code paths (identifiers, stat counts) is integral. -/
inductive Jv where
  | undef : Jv
  | null : Jv
  | bool (b : Bool) : Jv
  | num (n : Int) : Jv
  | str (s : String) : Jv
  | arr (elems : List Jv) : Jv
  | obj (fields : List (String × Jv)) : Jv

/-- A JS object: association list of own properties in insertion order. -/
abbrev JsObj := List (String × Jv)

/-- JS object property update `o[k] = v`: overwrite in place when the key
exists (insertion order kept), otherwise append at the end. -/
def setKey : List (String × α) → String → α → List (String × α)
  | [], k, v => [(k, v)]
  | (k', v') :: rest, k, v =>
      if k' = k then (k, v) :: rest else (k', v') :: setKey rest k v

/-- JS own-property lookup on an association-list object. -/
def lookupKey : List (String × α) → String → Option α
  | [], _ => none
  | (k', v) :: rest, k => if k' = k then some v else lookupKey rest k

/-- JS array indexing `row[i]`: `undefined` past the end. -/
def jsIndex (row : List Jv) (i : Nat) : Jv :=
  row.getD i Jv.undef

/-- One entry of a `resultSets` envelope: `{name, headers, rowSet}`. -/
structure RawResultSet where
  name : String
  headers : List String
  rowSet : List (List Jv)

/-- The loop body of `normalizeResultSet` over one row: for each index
`i < headers.length`, when `headers[i]` is truthy (non-empty) assign
`obj[headers[i]] = row[i]`.  Direct translation of the `for` loop in
`normalizeResultSet` (src/utils.ts). -/
def normalizeRowGo (row : List Jv) : Nat → List String → JsObj → JsObj
  | _, [], obj => obj
  | i, h :: hs, obj =>
      normalizeRowGo row (i + 1) hs
        (if h ≠ "" then setKey obj h (jsIndex row i) else obj)

/-- Tabular Normalizer: convert a result set with `headers`/`rowSet` to an
array of objects with named properties (src/utils.ts, `normalizeResultSet`). -/
def normalizeResultSet (resultSet : RawResultSet) : List JsObj :=
  resultSet.rowSet.map (fun row => normalizeRowGo row 0 resultSet.headers [])

/-- The global regex replace `str.replace(/_([a-z])/g, up)` scanning left
to right: an underscore directly followed by a lowercase ASCII letter is
deleted and the letter uppercased. -/
def camelReplaceGo : List Char → List Char
  | [] => []
  | '_' :: c :: rest =>
      if 'a' ≤ c ∧ c ≤ 'z' then Char.toUpper c :: camelReplaceGo rest
      else '_' :: camelReplaceGo (c :: rest)
  | c :: rest => c :: camelReplaceGo rest

/-- Case Converter (src/utils.ts, `toCamelCase`): lowercase the whole
string, then apply the underscore-letter replacement.  `Char.toLower`
models the simple-case mapping of `String.prototype.toLowerCase` (the
upstream header tokens are ASCII). -/
def toCamelCase (s : String) : String :=
  ⟨camelReplaceGo (s.data.map Char.toLower)⟩

/-- Key conversion (src/utils.ts, `normalizeKeys`): rebuild the object,
assigning each entry under its camelCased key, values untouched. -/
def normalizeKeys (obj : JsObj) : JsObj :=
  obj.foldl (fun acc kv => setKey acc (toCamelCase kv.1) kv.2) []

/-- The `resultSets` field of a raw stats payload: absent, present but
failing the `Array.isArray` guard, or an array of result sets. -/
inductive ResultSetsField where
  | absent : ResultSetsField
  | notArray (v : Jv) : ResultSetsField
  | sets (l : List RawResultSet) : ResultSetsField

/-- The `resultSet` field: absent, present but falsy (skips the
`if (raw.resultSet)` branch), one result-set object, or an array of them. -/
inductive ResultSetField where
  | absent : ResultSetField
  | falsy (v : Jv) : ResultSetField
  | one (r : RawResultSet) : ResultSetField
  | many (l : List RawResultSet) : ResultSetField

/-- The standard-envelope portion of a raw stats response. -/
structure RawStatsResponse where
  resultSets : ResultSetsField
  resultSet : ResultSetField

/-- Envelope Dispatcher (src/utils.ts, `normalizeResponse`): normalize a
`resultSets` array, else a `resultSet` object/array, else return the empty
mapping unchanged. -/
def normalizeResponse (raw : RawStatsResponse) : List (String × List JsObj) :=
  match raw.resultSets with
  | .sets l => l.foldl (fun m rs => setKey m rs.name (normalizeResultSet rs)) []
  | _ =>
    match raw.resultSet with
    | .one r => setKey [] r.name (normalizeResultSet r)
    | .many l => l.foldl (fun m rs => setKey m rs.name (normalizeResultSet rs)) []
    | _ => []

/-- A thrown Zod validation error: the list of issues explaining the
failure (src/schemas.ts models issues abstractly as values of `ι`). -/
structure ZodError (ι : Type) where
  issues : List ι

/-- The loop `items.map((item) => schema.parse(item))`: left to right, the
first failing element throws its `ZodError`. -/
def mapParse (schema : V → Except (ZodError ι) V) : List V → Except (ZodError ι) (List V)
  | [] => .ok []
  | x :: xs =>
    match schema x with
    | .error e => .error e
    | .ok y =>
      match mapParse schema xs with
      | .error e => .error e
      | .ok ys => .ok (y :: ys)

/-- Observable outcome of `parseArraySafe`: the returned array together
with the warning events written to the console, each carrying its
truncated issue sample. -/
structure ParseArrayOutcome (ι V : Type) where
  result : List V
  warnings : List (List ι)

/-- Lenient validator (src/schemas.ts, `parseArraySafe`): try to parse
every row; when any row throws, warn once with `error.issues.slice(0, 3)`
(unless `silent`) and return the original `items` unchanged. -/
def parseArraySafe (schema : V → Except (ZodError ι) V) (items : List V)
    (silent : Bool) : ParseArrayOutcome ι V :=
  match mapParse schema items with
  | .ok parsed => ⟨parsed, []⟩
  | .error e => ⟨items, if silent then [] else [e.issues.take 3]⟩

-- Basic facts about the JS-object primitives.

theorem lookupKey_setKey_self (obj : List (String × α)) (k : String) (v : α) :
    lookupKey (setKey obj k v) k = some v := by
  induction obj with
  | nil => simp [setKey, lookupKey]
  | cons hd tl ih =>
    by_cases h : hd.1 = k
    · simp [setKey, lookupKey, h]
    · simp [setKey, lookupKey, h, ih]

theorem lookupKey_eq_none_iff (l : List (String × α)) (k : String) :
    lookupKey l k = none ↔ k ∉ l.map Prod.fst := by
  induction l with
  | nil => simp [lookupKey]
  | cons hd tl ih =>
    by_cases h : hd.1 = k
    · simp [lookupKey, h]
    · simp [lookupKey, h, ih, Ne.symm h]

theorem lookupKey_append (a b : List (String × α)) (k : String) :
    lookupKey (a ++ b) k =
      match lookupKey a k with
      | some v => some v
      | none => lookupKey b k := by
  induction a with
  | nil => simp [lookupKey]
  | cons hd tl ih =>
    by_cases h : hd.1 = k
    · simp [lookupKey, h]
    · simp [lookupKey, h, ih]

theorem setKey_eq_append (obj : List (String × α)) (k : String) (v : α)
    (h : lookupKey obj k = none) : setKey obj k v = obj ++ [(k, v)] := by
  induction obj with
  | nil => simp [setKey]
  | cons hd tl ih =>
    by_cases hk : hd.1 = k
    · simp [lookupKey, hk] at h
    · simp [lookupKey, hk] at h
      simp [setKey, hk, ih h]

theorem lookupKey_of_mem_of_nodup (l : List (String × α)) (k : String) (v : α)
    (hnd : (l.map Prod.fst).Nodup) (hm : (k, v) ∈ l) :
    lookupKey l k = some v := by
  induction l with
  | nil => simp at hm
  | cons hd tl ih =>
    simp only [List.map_cons, List.nodup_cons] at hnd
    rcases List.mem_cons.mp hm with h | h
    · subst h; simp [lookupKey]
    · have hne : hd.1 ≠ k := by
        intro hk
        exact hnd.1 (hk ▸ (List.mem_map.mpr ⟨(k, v), h, rfl⟩))
      simp [lookupKey, hne, ih hnd.2 h]

/-- Folding JS assignments of a list of fresh, pairwise distinct keys onto
an object appends the list verbatim. -/
theorem foldl_setKey_eq_append (ps acc : List (String × α))
    (hnd : (ps.map Prod.fst).Nodup)
    (hfresh : ∀ p ∈ ps, lookupKey acc p.1 = none) :
    ps.foldl (fun a p => setKey a p.1 p.2) acc = acc ++ ps := by
  induction ps generalizing acc with
  | nil => simp
  | cons hd tl ih =>
    simp only [List.map_cons, List.nodup_cons] at hnd
    have h1 : setKey acc hd.1 hd.2 = acc ++ [hd] := by
      have := setKey_eq_append acc hd.1 hd.2 (hfresh hd (List.mem_cons_self _ _))
      simpa using this
    have h2 : ∀ p ∈ tl, lookupKey (acc ++ [hd]) p.1 = none := by
      intro p hp
      rw [lookupKey_append]
      have hfst : p.1 ≠ hd.1 := by
        intro hk
        exact hnd.1 (hk ▸ (List.mem_map.mpr ⟨p, hp, rfl⟩))
      simp [hfresh p (List.mem_cons_of_mem _ hp), lookupKey, Ne.symm hfst]
    calc (hd :: tl).foldl (fun a p => setKey a p.1 p.2) acc
        = tl.foldl (fun a p => setKey a p.1 p.2) (acc ++ [hd]) := by
          simp [List.foldl_cons, h1]
      _ = (acc ++ [hd]) ++ tl := ih (acc ++ [hd]) hnd.2 h2
      _ = acc ++ hd :: tl := by simp

-- Characterizing the Tabular Normalizer's per-row object.

/-- The association contributed by header index `p.1` with name `p.2`:
skipped when the name is falsy, else the JS-indexed cell (out-of-bounds
gives `Jv.undef`). -/
def pickRow (row : List Jv) (p : Nat × String) : Option (String × Jv) :=
  if p.2 ≠ "" then some (p.2, jsIndex row p.1) else none

theorem normalizeRowGo_eq_foldl (row : List Jv) (hs : List String) :
    ∀ (i : Nat) (obj : JsObj),
      normalizeRowGo row i hs obj =
        ((List.enumFrom i hs).filterMap (pickRow row)).foldl
          (fun a p => setKey a p.1 p.2) obj := by
  induction hs with
  | nil => intro i obj; simp [normalizeRowGo, List.enumFrom]
  | cons h tl ih =>
    intro i obj
    by_cases hh : h = ""
    · subst hh
      simp [normalizeRowGo, List.enumFrom, List.filterMap_cons, pickRow, ih]
    · simp [normalizeRowGo, List.enumFrom, List.filterMap_cons, pickRow, hh, ih]

theorem keys_filterMap_pickRow (row : List Jv) (hs : List String) :
    ∀ i : Nat,
      ((List.enumFrom i hs).filterMap (pickRow row)).map Prod.fst =
        hs.filter (fun h => h != "") := by
  induction hs with
  | nil => intro i; simp [List.enumFrom]
  | cons h tl ih =>
    intro i
    by_cases hh : h = ""
    · subst hh
      simp [List.enumFrom, List.filterMap_cons, pickRow, List.filter_cons, ih]
    · simp [List.enumFrom, List.filterMap_cons, pickRow, hh, List.filter_cons, ih]

theorem mem_enumFrom_getD (hs : List String) :
    ∀ (i j : Nat), j < hs.length → (i + j, hs.getD j "") ∈ List.enumFrom i hs := by
  induction hs with
  | nil => intro i j hj; simp at hj
  | cons h tl ih =>
    intro i j hj
    cases j with
    | zero => simp [List.enumFrom]
    | succ j' =>
      have hj' : j' < tl.length := by simpa using hj
      have := ih (i + 1) j' hj'
      have harith : i + (j' + 1) = (i + 1) + j' := by omega
      simp only [List.enumFrom, List.getD_cons_succ, List.mem_cons]
      exact Or.inr (harith ▸ this)

/-- Headers are well-formed when no truthy (non-empty) header name occurs
twice; a later duplicate assignment would overwrite the earlier one. -/
abbrev goodHeaders (hs : List String) : Prop :=
  (hs.filter (fun h => h != "")).Nodup

theorem normalizeRowGo_eq_filterMap (row : List Jv) (hs : List String)
    (hnd : goodHeaders hs) :
    normalizeRowGo row 0 hs [] = (List.enumFrom 0 hs).filterMap (pickRow row) := by
  rw [normalizeRowGo_eq_foldl]
  have hkeys := keys_filterMap_pickRow row hs 0
  exact (foldl_setKey_eq_append _ [] (by rw [hkeys]; exact hnd)
    (fun p _ => rfl)).trans (by simp)

theorem normalizeRowGo_lookup (row : List Jv) (hs : List String)
    (hnd : goodHeaders hs) (j : Nat) (hj : j < hs.length)
    (hne : hs.getD j "" ≠ "") :
    lookupKey (normalizeRowGo row 0 hs []) (hs.getD j "") = some (jsIndex row j) := by
  rw [normalizeRowGo_eq_filterMap row hs hnd]
  apply lookupKey_of_mem_of_nodup
  · rw [keys_filterMap_pickRow]; exact hnd
  · apply List.mem_filterMap.mpr
    refine ⟨(j, hs.getD j ""), ?_, ?_⟩
    · have := mem_enumFrom_getD hs 0 j hj
      simpa using this
    · simp only [pickRow, ne_eq, ite_not, ite_eq_right_iff]
      intro hc
      exact absurd (by simpa using hc) hne

theorem normalizeResultSet_getD (rs : RawResultSet) (k : Nat)
    (hk : k < rs.rowSet.length) :
    (normalizeResultSet rs).getD k [] =
      normalizeRowGo (rs.rowSet.getD k []) 0 rs.headers [] := by
  have hlen : k < (normalizeResultSet rs).length := by
    simpa [normalizeResultSet] using hk
  rw [List.getD_eq_getElem _ _ hlen, List.getD_eq_getElem _ _ hk]
  simp [normalizeResultSet]

-- Identifier validation (src/utils.ts).  A thrown `Error` is modelled as
-- `Except.error` carrying the message.

/-- Validate that a player ID is a positive integer (src/utils.ts,
`validatePlayerId`).  JS numbers are modelled as rationals; the
`Number.isInteger` test is `den = 1`. -/
def validatePlayerId (playerId : ℚ) : Except String Unit :=
  if playerId.den ≠ 1 ∨ playerId ≤ 0 then
    .error ("Invalid player ID: " ++ toString playerId ++ ". Must be a positive integer.")
  else .ok ()

/-- Validate that a team ID is a positive integer (src/utils.ts,
`validateTeamId`). -/
def validateTeamId (teamId : ℚ) : Except String Unit :=
  if teamId.den ≠ 1 ∨ teamId ≤ 0 then
    .error ("Invalid team ID: " ++ toString teamId ++ ". Must be a positive integer.")
  else .ok ()

/-- Validate that a game ID matches `/^\d{10}$/` (src/utils.ts,
`validateGameId`). -/
def validateGameId (gameId : String) : Except String Unit :=
  if gameId.data.length = 10 ∧ gameId.data.all Char.isDigit then .ok ()
  else .error ("Invalid game ID: " ++ gameId ++ ". Must be a 10-digit string (e.g., \x220022400001\x22).")

/-- Decimal value of a digit list (the `parseInt` of an all-digit slice). -/
def digitsToNat (l : List Char) : Nat :=
  l.foldl (fun acc c => 10 * acc + (c.toNat - 48)) 0

def isDigitList (l : List Char) : Bool :=
  l.all Char.isDigit

/-- The `/^\d{4}-\d{2}-\d{2}$/` test of `validateDate` together with the
three `parseInt` reads that `new Date` performs on an ISO date string. -/
def datePatternParts (s : String) : Option (Nat × Nat × Nat) :=
  match s.data with
  | [y1, y2, y3, y4, '-', m1, m2, '-', d1, d2] =>
    if isDigitList [y1, y2, y3, y4, m1, m2, d1, d2] then
      some (digitsToNat [y1, y2, y3, y4], digitsToNat [m1, m2], digitsToNat [d1, d2])
    else none
  | _ => none

def isLeapYear (y : Nat) : Bool :=
  (y % 4 == 0 && y % 100 != 0) || y % 400 == 0

def daysInMonth (y m : Nat) : Nat :=
  if m = 2 then (if isLeapYear y then 29 else 28)
  else if m = 4 ∨ m = 6 ∨ m = 9 ∨ m = 11 then 30
  else 31

/-- Validity of the components of an ISO `YYYY-MM-DD` string under the JS
`new Date(...)` ISO parser: a month in 1..12 and a day within the month's
Gregorian length, else `Invalid Date`. -/
def isValidIsoDate (y m d : Nat) : Bool :=
  1 ≤ m && m ≤ 12 && 1 ≤ d && d ≤ daysInMonth y m

/-- Validate a `YYYY-MM-DD` date (src/utils.ts, `validateDate`): the
regex test, then the `new Date` / `isNaN(getTime())` check. -/
def validateDate (date : String) : Except String Unit :=
  match datePatternParts date with
  | none => .error ("Invalid date format: " ++ date ++ ". Expected format: YYYY-MM-DD")
  | some (y, m, d) =>
    if isValidIsoDate y m d then .ok ()
    else .error ("Invalid date: " ++ date)

/-- The `/^\d{4}-\d{2}$/` test of `validateSeason` with the two
`parseInt` reads of the start year and the end-year suffix. -/
def seasonPatternParts (s : String) : Option (Nat × Nat) :=
  match s.data with
  | [y1, y2, y3, y4, '-', e1, e2] =>
    if isDigitList [y1, y2, y3, y4, e1, e2] then
      some (digitsToNat [y1, y2, y3, y4], digitsToNat [e1, e2])
    else none
  | _ => none

/-- Left-pad to two digits, as `String(n).padStart(2, '0')`. -/
def pad2 (n : Nat) : String :=
  if n < 10 then "0" ++ toString n else toString n

/-- Validate a season string (src/utils.ts, `validateSeason`): format
`YYYY-YY`, end-year suffix `(startYear + 1) % 100`, start year at least
1946 and at most `currentYear + 1`.  `currentYear` abstracts the host
clock read `new Date().getFullYear()`. -/
def validateSeason (currentYear : Nat) (season : String) : Except String Unit :=
  match seasonPatternParts season with
  | none =>
    .error ("Invalid season format: " ++ season ++ ". Expected format: YYYY-YY (e.g., 2024-25)")
  | some (startYear, endYearSuffix) =>
    let expectedEndSuffix := (startYear + 1) % 100
    if endYearSuffix ≠ expectedEndSuffix then
      .error ("Invalid season: " ++ season ++ ". End year suffix should be " ++ pad2 expectedEndSuffix)
    else if startYear < 1946 then
      .error ("Season " ++ season ++ " is before NBA founding year (1946)")
    else if startYear > currentYear + 1 then
      .error ("Season " ++ season ++ " is in the future")
    else .ok ()

-- Query assembly of `buildStatsUrl` and `fetchStats` (src/utils.ts).

/-- A query-parameter value as supplied to `fetchStats`/`buildStatsUrl`:
`string | number | boolean | null | undefined`. -/
inductive ParamValue where
  | undef : ParamValue
  | null : ParamValue
  | str (s : String) : ParamValue
  | num (n : Int) : ParamValue
  | bool (b : Bool) : ParamValue
  deriving DecidableEq

/-- The guard `value !== undefined && value !== null && value !== ''`. -/
def keepParam : ParamValue → Bool
  | .undef => false
  | .null => false
  | .str s => s != ""
  | .num _ => true
  | .bool _ => true

/-- The `String(value)` coercion applied to a kept parameter value. -/
def paramToString : ParamValue → String
  | .undef => "undefined"
  | .null => "null"
  | .str s => s
  | .num n => toString n
  | .bool b => cond b "true" "false"

/-- Collation rank of a character under the `localeCompare` default
locale, modelled for ASCII: primary comparison is case-insensitive, with
the lowercase letter ordered just before its uppercase form. -/
def charRank (c : Char) : Nat :=
  if c.isUpper then 2 * (c.toNat + 32) + 1 else 2 * c.toNat

def rankList (s : String) : List Nat :=
  s.data.map charRank

/-- Strict lexicographic order on rank lists (shorter prefix first). -/
def lexLt : List Nat → List Nat → Bool
  | [], [] => false
  | [], _ :: _ => true
  | _ :: _, [] => false
  | a :: as, b :: bs => a < b || (a == b && lexLt as bs)

/-- The `a.localeCompare(b) < 0` test of the sort comparator. -/
def localeLt (a b : String) : Bool :=
  lexLt (rankList a) (rankList b)

/-- The `a.localeCompare(b) <= 0` relation characterizing a correctly
sorted output of `Array.prototype.sort` under the comparator. -/
def localeLe (a b : String) : Bool :=
  localeLt a b || a == b

/-- The filtering loop of `buildStatsUrl`/`fetchStats`: append only
parameters that pass `keepParam`, stringified. -/
def collectParams (params : List (String × ParamValue)) : List (String × String) :=
  (params.filter (fun kv => keepParam kv.2)).map (fun kv => (kv.1, paramToString kv.2))

/-- The comparator relation `(a, b) => a[0].localeCompare(b[0])` on query
entries. -/
def paramKeyLe (p q : String × String) : Prop :=
  localeLe p.1 q.1 = true

/-- Strict version of `paramKeyLe` (distinct keys). -/
def paramKeyLt (p q : String × String) : Prop :=
  localeLt p.1 q.1 = true

instance : DecidableRel paramKeyLe := fun _ _ => by
  unfold paramKeyLe; infer_instance

/-- `[...url.searchParams.entries()].sort((a, b) => a[0].localeCompare(b[0]))`:
any correct comparison sort; on key-distinct inputs the result is the
unique `paramKeyLe`-sorted permutation. -/
def sortParams (l : List (String × String)) : List (String × String) :=
  List.insertionSort paramKeyLe l

/-- The sorted query-parameter sequence of the request URL built by
`buildStatsUrl` and by `fetchStats` (both build it identically). -/
def buildStatsQuery (params : List (String × ParamValue)) : List (String × String) :=
  sortParams (collectParams params)

/-- Serialization of the sorted pairs (`URLSearchParams.toString`;
percent-encoding elided, the parameter strings in use are URL-safe). -/
def renderQuery (q : List (String × String)) : String :=
  String.intercalate "&" (q.map (fun kv => kv.1 ++ "=" ++ kv.2))

/-- The full request URL (`STATS_BASE_URL` is a fixed constant). -/
def buildStatsUrl (endpoint : String) (params : List (String × ParamValue)) : String :=
  "https://stats.nba.com/stats/" ++ endpoint ++ "?" ++ renderQuery (buildStatsQuery params)

-- Order properties of the modelled collation.

theorem lexLt_asymm : ∀ x y : List Nat, lexLt x y = true → lexLt y x = true → False := by
  intro x
  induction x with
  | nil => intro y hxy hyx; cases y <;> simp [lexLt] at hxy hyx
  | cons a as ih =>
    intro y hxy hyx
    cases y with
    | nil => simp [lexLt] at hxy
    | cons b bs =>
      simp only [lexLt, Bool.or_eq_true, Bool.and_eq_true, beq_iff_eq,
        decide_eq_true_eq] at hxy hyx
      rcases hxy with h1 | ⟨he1, h1⟩ <;> rcases hyx with h2 | ⟨he2, h2⟩
      · omega
      · omega
      · omega
      · exact ih bs h1 h2

theorem lexLt_trans : ∀ x y z : List Nat,
    lexLt x y = true → lexLt y z = true → lexLt x z = true := by
  intro x
  induction x with
  | nil =>
    intro y z hxy hyz
    cases y with
    | nil => simp [lexLt] at hxy
    | cons b bs =>
      cases z with
      | nil => simp [lexLt] at hyz
      | cons c cs => simp [lexLt]
  | cons a as ih =>
    intro y z hxy hyz
    cases y with
    | nil => simp [lexLt] at hxy
    | cons b bs =>
      cases z with
      | nil => simp [lexLt] at hyz
      | cons c cs =>
        simp only [lexLt, Bool.or_eq_true, Bool.and_eq_true, beq_iff_eq,
          decide_eq_true_eq] at hxy hyz ⊢
        rcases hxy with h1 | ⟨he1, h1⟩ <;> rcases hyz with h2 | ⟨he2, h2⟩
        · exact Or.inl (by omega)
        · exact Or.inl (by omega)
        · exact Or.inl (by omega)
        · exact Or.inr ⟨by omega, ih bs cs h1 h2⟩

theorem lexLt_total : ∀ x y : List Nat,
    lexLt x y = true ∨ lexLt y x = true ∨ x = y := by
  intro x
  induction x with
  | nil => intro y; cases y <;> simp [lexLt]
  | cons a as ih =>
    intro y
    cases y with
    | nil => simp [lexLt]
    | cons b bs =>
      rcases Nat.lt_trichotomy a b with h | h | h
      · exact Or.inl (by simp [lexLt]; omega)
      · subst h
        rcases ih bs with h' | h' | h'
        · exact Or.inl (by simp [lexLt, h'])
        · exact Or.inr (Or.inl (by simp [lexLt, h']))
        · exact Or.inr (Or.inr (by simp [h']))
      · exact Or.inr (Or.inl (by simp [lexLt]; omega))

theorem charRank_injective : ∀ c d : Char, charRank c = charRank d → c = d := by
  intro c d h
  unfold charRank at h
  have hcd : c.toNat = d.toNat := by
    by_cases hc : c.isUpper <;> by_cases hd : d.isUpper <;>
      simp [hc, hd] at h <;> omega
  exact Char.eq_of_val_eq (UInt32.ext hcd)

theorem rankList_injective : ∀ a b : String, rankList a = rankList b → a = b := by
  intro a b h
  unfold rankList at h
  have : a.data = b.data := by
    have hinj : Function.Injective charRank := fun x y => charRank_injective x y
    exact List.map_injective_iff.mpr hinj h
  cases a; cases b; exact congrArg String.mk this

theorem localeLe_total (a b : String) : localeLe a b = true ∨ localeLe b a = true := by
  rcases lexLt_total (rankList a) (rankList b) with h | h | h
  · exact Or.inl (by simp [localeLe, localeLt, h])
  · exact Or.inr (by simp [localeLe, localeLt, h])
  · exact Or.inl (by simp [localeLe, rankList_injective a b h])

theorem localeLe_trans (a b c : String) (h1 : localeLe a b = true)
    (h2 : localeLe b c = true) : localeLe a c = true := by
  simp only [localeLe, localeLt, Bool.or_eq_true, beq_iff_eq] at h1 h2 ⊢
  rcases h1 with h1 | h1
  · rcases h2 with h2 | h2
    · exact Or.inl (lexLt_trans _ _ _ h1 h2)
    · subst h2; exact Or.inl h1
  · subst h1
    exact h2

theorem localeLe_antisymm (a b : String) (h1 : localeLe a b = true)
    (h2 : localeLe b a = true) : a = b := by
  simp only [localeLe, localeLt, Bool.or_eq_true, beq_iff_eq] at h1 h2
  rcases h1 with h1 | h1
  · rcases h2 with h2 | h2
    · exact (lexLt_asymm _ _ h1 h2).elim
    · exact h2.symm
  · exact h1

instance : IsTotal (String × String) paramKeyLe :=
  ⟨fun p q => localeLe_total p.1 q.1⟩

instance : IsTrans (String × String) paramKeyLe :=
  ⟨fun p q r h1 h2 => localeLe_trans p.1 q.1 r.1 h1 h2⟩

instance : IsAntisymm (String × String) paramKeyLt :=
  ⟨fun _ _ h1 h2 => (lexLt_asymm _ _ h1 h2).elim⟩

theorem sorted_buildStatsQuery (params : List (String × ParamValue)) :
    List.Sorted paramKeyLe (buildStatsQuery params) :=
  List.sorted_insertionSort paramKeyLe (collectParams params)

theorem buildStatsQuery_perm_collect (params : List (String × ParamValue)) :
    (buildStatsQuery params).Perm (collectParams params) :=
  List.perm_insertionSort paramKeyLe (collectParams params)

theorem collectParams_keys_sublist (params : List (String × ParamValue)) :
    ((collectParams params).map Prod.fst).Sublist (params.map Prod.fst) := by
  unfold collectParams
  rw [List.map_map]
  have h : (Prod.fst ∘ fun kv : String × ParamValue => (kv.1, paramToString kv.2)) =
      Prod.fst := rfl
  rw [h]
  exact (List.filter_sublist params).map Prod.fst

theorem sorted_keyLt_of_sorted_of_nodup (l : List (String × String))
    (hs : List.Sorted paramKeyLe l) (hnd : (l.map Prod.fst).Nodup) :
    List.Sorted paramKeyLt l := by
  have hpw : l.Pairwise (fun p q : String × String => p.1 ≠ q.1) :=
    List.pairwise_map.mp hnd
  refine (hs.and hpw).imp ?_
  intro p q hpq
  rcases hpq with ⟨hle, hne⟩
  simp only [paramKeyLe, localeLe, Bool.or_eq_true, beq_iff_eq] at hle
  rcases hle with h | h
  · exact h
  · exact absurd h hne

/-- On key-distinct inputs, the sorted query is uniquely determined by the
multiset of surviving entries: permuting the supplied parameters does not
change the output list. -/
theorem buildStatsQuery_perm_invariant (params params' : List (String × ParamValue))
    (hnd : (params.map Prod.fst).Nodup) (hp : params.Perm params') :
    buildStatsQuery params = buildStatsQuery params' := by
  have hcoll : (collectParams params).Perm (collectParams params') := by
    unfold collectParams
    exact ((hp.filter (fun kv => keepParam kv.2)).map _)
  have hq : (buildStatsQuery params).Perm (buildStatsQuery params') :=
    ((buildStatsQuery_perm_collect params).trans hcoll).trans
      (buildStatsQuery_perm_collect params').symm
  have hnd1 : ((buildStatsQuery params).map Prod.fst).Nodup := by
    have h1 : ((buildStatsQuery params).map Prod.fst).Perm
        ((collectParams params).map Prod.fst) :=
      (buildStatsQuery_perm_collect params).map Prod.fst
    exact h1.nodup_iff.mpr ((collectParams_keys_sublist params).nodup hnd)
  have hnd2 : ((buildStatsQuery params').map Prod.fst).Nodup := by
    have h2 : ((buildStatsQuery params').map Prod.fst).Perm
        ((buildStatsQuery params).map Prod.fst) :=
      (hq.symm).map Prod.fst
    exact h2.nodup_iff.mpr hnd1
  exact @List.eq_of_perm_of_sorted (String × String) paramKeyLt _ _ _ hq
    (sorted_keyLt_of_sorted_of_nodup _ (sorted_buildStatsQuery params) hnd1)
    (sorted_keyLt_of_sorted_of_nodup _ (sorted_buildStatsQuery params') hnd2)

theorem mem_buildStatsQuery_iff (params : List (String × ParamValue))
    (k v : String) :
    (k, v) ∈ buildStatsQuery params ↔
      ∃ raw, (k, raw) ∈ params ∧ keepParam raw = true ∧ v = paramToString raw := by
  rw [(buildStatsQuery_perm_collect params).mem_iff]
  unfold collectParams
  simp only [List.mem_map, List.mem_filter]
  constructor
  · rintro ⟨⟨k', raw⟩, ⟨hm, hk⟩, heq⟩
    obtain ⟨h1, h2⟩ := Prod.mk.injEq .. ▸ heq
    exact ⟨raw, by simpa [← h1] using hm, hk, h2.symm⟩
  · rintro ⟨raw, hm, hk, hv⟩
    exact ⟨(k, raw), ⟨hm, hk⟩, by simp [hv]⟩

-- JS property access helpers for the raw V3 payloads (src/api.ts).

/-- Property read `v[k]`: `undefined` when the key is missing or the value
is a (boxed) primitive.  Reads on `null`/`undefined` receivers would throw
in JS; every modelled read site is guarded by `?? {}`. -/
def jsGet (v : Jv) (k : String) : Jv :=
  match v with
  | .obj l => (lookupKey l k).getD Jv.undef
  | _ => Jv.undef

/-- Nullish coalescing `v ?? dflt`. -/
def jsCoalesce (v dflt : Jv) : Jv :=
  match v with
  | .undef => dflt
  | .null => dflt
  | _ => v

/-- String coercion inside a template literal.  Array element joining and
object stringification are elided (the coerced fields are names, i.e.
strings, in every observed payload). -/
def jsTemplateStr : Jv → String
  | .str s => s
  | .num n => toString n
  | .bool b => cond b "true" "false"
  | .null => "null"
  | .undef => "undefined"
  | .arr _ => ""
  | .obj _ => "[object Object]"

/-- V3 box-score player normalization (src/utils.ts,
`normalizeV3PlayerStats`): flatten the player's top-level identification
fields, the team identity fields, and the `statistics` sub-object into one
flat row, remapping V3 field names to the expected schema names. -/
def normalizeV3PlayerStats (player team : Jv) : Jv :=
  let stats := jsCoalesce (jsGet player "statistics") (Jv.obj [])
  Jv.obj
    [ ("playerId", jsGet player "personId"),
      ("playerName", Jv.str (String.trim
        (jsTemplateStr (jsCoalesce (jsGet player "firstName") (Jv.str "")) ++ " " ++
         jsTemplateStr (jsCoalesce (jsGet player "familyName") (Jv.str ""))))),
      ("playerNameI", jsGet player "nameI"),
      ("jerseyNum", jsGet player "jerseyNum"),
      ("position", jsGet player "position"),
      ("startPosition", jsGet player "position"),
      ("comment", jsGet player "comment"),
      ("teamId", jsGet team "teamId"),
      ("teamCity", jsGet team "teamCity"),
      ("teamName", jsGet team "teamName"),
      ("teamAbbreviation", jsGet team "teamTricode"),
      ("minutes", jsGet stats "minutes"),
      ("fieldGoalsMade", jsGet stats "fieldGoalsMade"),
      ("fieldGoalsAttempted", jsGet stats "fieldGoalsAttempted"),
      ("fieldGoalPct", jsGet stats "fieldGoalsPercentage"),
      ("threePointersMade", jsGet stats "threePointersMade"),
      ("threePointersAttempted", jsGet stats "threePointersAttempted"),
      ("threePointPct", jsGet stats "threePointersPercentage"),
      ("freeThrowsMade", jsGet stats "freeThrowsMade"),
      ("freeThrowsAttempted", jsGet stats "freeThrowsAttempted"),
      ("freeThrowPct", jsGet stats "freeThrowsPercentage"),
      ("offensiveRebounds", jsGet stats "reboundsOffensive"),
      ("defensiveRebounds", jsGet stats "reboundsDefensive"),
      ("rebounds", jsGet stats "reboundsTotal"),
      ("assists", jsGet stats "assists"),
      ("steals", jsGet stats "steals"),
      ("blocks", jsGet stats "blocks"),
      ("turnovers", jsGet stats "turnovers"),
      ("personalFouls", jsGet stats "foulsPersonal"),
      ("points", jsGet stats "points"),
      ("plusMinus", jsGet stats "plusMinusPoints") ]

/-- The player-stats portion of `getBoxScoreTraditional` (src/api.ts)
after the raw fetch: container lookup with empty-object substitution
(`rawData['boxScoreTraditional'] ?? {}`, `boxScore['homeTeam'] ?? {}` and
so on), per-side V3 normalization, home-then-away concatenation, lenient
validation.  `none` models the JS `TypeError` thrown when a present
`players` field is not an array; the `?? []` default makes a missing list
empty. -/
def boxScorePlayerStats (schema : Jv → Except (ZodError ι) Jv) (rawData : Jv) :
    Option (List Jv) :=
  let boxScore := jsCoalesce (jsGet rawData "boxScoreTraditional") (Jv.obj [])
  let homeTeam := jsCoalesce (jsGet boxScore "homeTeam") (Jv.obj [])
  let awayTeam := jsCoalesce (jsGet boxScore "awayTeam") (Jv.obj [])
  match jsCoalesce (jsGet homeTeam "players") (Jv.arr []),
        jsCoalesce (jsGet awayTeam "players") (Jv.arr []) with
  | .arr hp, .arr ap =>
    some (parseArraySafe schema
      (hp.map (fun p => normalizeV3PlayerStats p homeTeam) ++
       ap.map (fun p => normalizeV3PlayerStats p awayTeam)) false).result
  | _, _ => none

/-- The TS cast `row as Record<string, unknown>` followed by
`Object.entries`: field list of an object, empty for primitives. -/
def jsObjFields : Jv → JsObj
  | .obj l => l
  | _ => []

/-- Processing applied by the singular-record endpoints to the first
returned row: camelCase the keys, then run the lenient validator on the
one-element array and take its head (`validated[0]`). -/
def singleRecordOf (schema : Jv → Except (ZodError ι) Jv) (row : Jv) : Jv :=
  (parseArraySafe schema [Jv.obj (normalizeKeys (jsObjFields row))] false).result.getD 0 Jv.undef

/-- Post-fetch logic of `getCommonPlayerInfo` (src/api.ts): read the
`CommonPlayerInfo` table of the normalized response (`?? []`), throw a
not-found error on zero rows, else normalize/validate the first row and
return it alone. -/
def getCommonPlayerInfo (schema : Jv → Except (ZodError ι) Jv) (playerId : Int)
    (data : List (String × List Jv)) : Except String Jv :=
  let resultSet := (lookupKey data "CommonPlayerInfo").getD []
  if resultSet.length = 0 then
    .error ("Player not found: " ++ toString playerId)
  else
    .ok (singleRecordOf schema (resultSet.getD 0 Jv.undef))

/-- Post-fetch logic of `getTeamInfoCommon` (src/api.ts): identical shape,
over the `TeamInfoCommon` table. -/
def getTeamInfoCommon (schema : Jv → Except (ZodError ι) Jv) (teamId : Int)
    (data : List (String × List Jv)) : Except String Jv :=
  let resultSet := (lookupKey data "TeamInfoCommon").getD []
  if resultSet.length = 0 then
    .error ("Team not found: " ++ toString teamId)
  else
    .ok (singleRecordOf schema (resultSet.getD 0 Jv.undef))

-- Behaviour of the lenient validator's parsing loop.

theorem mapParse_ok_of_forall (schema : V → Except (ZodError ι) V)
    (items : List V) (h : ∀ x ∈ items, ∃ y, schema x = .ok y) :
    ∃ ys, mapParse schema items = .ok ys ∧
      List.Forall₂ (fun x y => schema x = .ok y) items ys := by
  induction items with
  | nil => exact ⟨[], rfl, List.Forall₂.nil⟩
  | cons x xs ih =>
    obtain ⟨y, hy⟩ := h x (List.mem_cons_self _ _)
    obtain ⟨ys, hys, hfa⟩ := ih (fun z hz => h z (List.mem_cons_of_mem _ hz))
    exact ⟨y :: ys, by simp [mapParse, hy, hys], List.Forall₂.cons hy hfa⟩

theorem mapParse_error_of_exists (schema : V → Except (ZodError ι) V)
    (items : List V) (h : ∃ x ∈ items, ∃ e, schema x = .error e) :
    ∃ e, mapParse schema items = .error e := by
  induction items with
  | nil => simp at h
  | cons x xs ih =>
    rcases h with ⟨z, hz, e, he⟩
    rcases List.mem_cons.mp hz with rfl | hz'
    · exact ⟨e, by simp [mapParse, he]⟩
    · cases hx : schema x with
      | error e' => exact ⟨e', by simp [mapParse, hx]⟩
      | ok y =>
        obtain ⟨e'', he''⟩ := ih ⟨z, hz', e, he⟩
        exact ⟨e'', by simp [mapParse, hx, he'']⟩

theorem mapParse_ok_forall₂ (schema : V → Except (ZodError ι) V)
    (items ys : List V) (h : mapParse schema items = .ok ys) :
    List.Forall₂ (fun x y => schema x = .ok y) items ys := by
  induction items generalizing ys with
  | nil =>
    simp only [mapParse] at h
    cases h
    exact List.Forall₂.nil
  | cons x xs ih =>
    simp only [mapParse] at h
    cases hx : schema x with
    | error e => rw [hx] at h; cases h
    | ok y =>
      rw [hx] at h
      cases hxs : mapParse schema xs with
      | error e => rw [hxs] at h; cases h
      | ok ys' =>
        rw [hxs] at h
        cases h
        exact List.Forall₂.cons hx (ih ys' hxs)

-- ===========================================================================
-- Claims
-- ===========================================================================

/-- C1: the lenient validator `parseArraySafe` (silent not set) is
all-or-nothing: when any row fails schema validation it returns the
original input array unchanged (every row, in order) and emits exactly one
warning event whose payload holds at most 3 underlying failure reasons;
when every row validates it returns the per-row parsed results (and warns
nothing). -/
theorem parseArraySafe_all_or_nothing (ι V : Type)
    (schema : V → Except (ZodError ι) V) (items : List V) :
    ((∃ x ∈ items, ∃ e, schema x = .error e) →
       (parseArraySafe schema items false).result = items ∧
       (parseArraySafe schema items false).warnings.length = 1 ∧
       ∀ w ∈ (parseArraySafe schema items false).warnings, w.length ≤ 3)
    ∧ ((∀ x ∈ items, ∃ y, schema x = .ok y) →
       List.Forall₂ (fun x y => schema x = .ok y) items
         (parseArraySafe schema items false).result ∧
       (parseArraySafe schema items false).warnings = []) := by
  constructor
  · intro h
    obtain ⟨e, he⟩ := mapParse_error_of_exists schema items h
    refine ⟨by simp [parseArraySafe, he], by simp [parseArraySafe, he], ?_⟩
    intro w hw
    have hw' : w = e.issues.take 3 := by
      simpa [parseArraySafe, he] using hw
    subst hw'
    simp only [List.length_take]
    exact Nat.min_le_left _ _
  · intro h
    obtain ⟨ys, hys, hfa⟩ := mapParse_ok_of_forall schema items h
    exact ⟨by simpa [parseArraySafe, hys] using hfa, by simp [parseArraySafe, hys]⟩

/-- A schema used to witness C1: accepts even numbers, rejects odd ones
with a four-issue error. -/
def witnessSchemaC1 : Nat → Except (ZodError Unit) Nat :=
  fun n => if n % 2 = 0 then .ok n else .error ⟨[(), (), (), ()]⟩

theorem parseArraySafe_all_or_nothing_witness :
    (parseArraySafe witnessSchemaC1 [2, 3] false).result = [2, 3] ∧
    (parseArraySafe witnessSchemaC1 [2, 3] false).warnings.length = 1 ∧
    (∀ w ∈ (parseArraySafe witnessSchemaC1 [2, 3] false).warnings, w.length ≤ 3) ∧
    (parseArraySafe witnessSchemaC1 [2, 4] false).warnings = [] := by
  obtain ⟨ha, -⟩ := parseArraySafe_all_or_nothing Unit Nat witnessSchemaC1 [2, 3]
  obtain ⟨-, hb⟩ := parseArraySafe_all_or_nothing Unit Nat witnessSchemaC1 [2, 4]
  have hfail : ∃ x ∈ [2, 3], ∃ e, witnessSchemaC1 x = .error e :=
    ⟨3, by simp, ⟨[(), (), (), ()]⟩, rfl⟩
  have hok : ∀ x ∈ [2, 4], ∃ y, witnessSchemaC1 x = .ok y := by
    intro x hx
    rcases List.mem_cons.mp hx with rfl | hx'
    · exact ⟨2, rfl⟩
    · rcases List.mem_cons.mp hx' with rfl | hx''
      · exact ⟨4, rfl⟩
      · simp at hx''
  obtain ⟨r1, r2, r3⟩ := ha hfail
  exact ⟨r1, r2, r3, (hb hok).2⟩

/-- C5: on a raw response with neither a `resultSets` array nor a
`resultSet` key, the Envelope Dispatcher `normalizeResponse` returns the
empty mapping (and, being total, never throws). -/
theorem normalizeResponse_nonstandard_empty (raw : RawStatsResponse)
    (h1 : raw.resultSets = .absent ∨ ∃ v, raw.resultSets = .notArray v)
    (h2 : raw.resultSet = .absent) :
    normalizeResponse raw = [] := by
  cases raw with
  | mk sets single =>
    cases h2
    rcases h1 with h | ⟨v, h⟩ <;> cases h <;> rfl

theorem normalizeResponse_nonstandard_empty_witness :
    normalizeResponse ⟨.absent, .absent⟩ = [] :=
  normalizeResponse_nonstandard_empty ⟨.absent, .absent⟩ (Or.inl rfl) rfl

/-- A season string whose format and two-digit suffix are internally
consistent but whose start year is below 1946 is rejected by
`validateSeason`, for every host-clock year. -/
theorem validateSeason_lower_bound (currentYear : Nat) (s : String)
    (startYear endSuffix : Nat)
    (hp : seasonPatternParts s = some (startYear, endSuffix))
    (hsuffix : endSuffix = (startYear + 1) % 100)
    (hlow : startYear < 1946) :
    validateSeason currentYear s =
      .error ("Season " ++ s ++ " is before NBA founding year (1946)") := by
  unfold validateSeason
  rw [hp]
  simp [hsuffix, hlow]

/-- C2 counterexample: with headers `["A", "B"]` and the shorter row
`[1]`, the produced mapping does contain the key `"B"` — bound to
`undefined` — contradicting the claim that the missing trailing key is not
present at all. -/
theorem normalizeResultSet_short_row_key_present :
    (normalizeResultSet ⟨"X", ["A", "B"], [[Jv.num 1]]⟩).getD 0 [] =
      [("A", Jv.num 1), ("B", Jv.undef)] ∧
    "B" ∈ (((normalizeResultSet ⟨"X", ["A", "B"], [[Jv.num 1]]⟩).getD 0 []).map
      Prod.fst) := by
  constructor
  · rfl
  · rw [show (((normalizeResultSet ⟨"X", ["A", "B"], [[Jv.num 1]]⟩).getD 0 []).map
      Prod.fst) = ["A", "B"] from rfl]
    simp

/-- C2 (amended): for a row shorter than the headers, each trailing
(truthy, non-duplicated) header key is present in the row's mapping and
explicitly bound to `undefined` — the JS out-of-bounds read — rather than
absent. -/
theorem normalizeResultSet_short_row_undef (rs : RawResultSet)
    (hnd : goodHeaders rs.headers) (k : Nat) (hk : k < rs.rowSet.length)
    (i : Nat) (hrow : (rs.rowSet.getD k []).length ≤ i)
    (hi : i < rs.headers.length) (hne : rs.headers.getD i "" ≠ "") :
    lookupKey ((normalizeResultSet rs).getD k []) (rs.headers.getD i "") =
      some Jv.undef := by
  rw [normalizeResultSet_getD rs k hk]
  rw [normalizeRowGo_lookup (rs.rowSet.getD k []) rs.headers hnd i hi hne]
  rw [jsIndex, List.getD_eq_default]
  exact hrow

theorem normalizeResultSet_short_row_undef_witness :
    lookupKey ((normalizeResultSet ⟨"X", ["A", "B"], [[Jv.num 1]]⟩).getD 0 [])
      (["A", "B"].getD 1 "") = some Jv.undef :=
  normalizeResultSet_short_row_undef ⟨"X", ["A", "B"], [[Jv.num 1]]⟩
    (by decide) 0 (by decide) 1 (by decide) (by decide) (by decide)

/-- C3 counterexample: with the duplicate header list `["A", "A"]` and row
`[1, 2]`, the mapping sends `"A"` (which is `headers[0]`) to `row[1]`, not
to `row[0]` — the later assignment overwrote the earlier one — so the
claimed per-index association fails as stated. -/
theorem normalizeResultSet_duplicate_header_overwrites :
    lookupKey ((normalizeResultSet ⟨"X", ["A", "A"], [[Jv.num 1, Jv.num 2]]⟩).getD 0 [])
        "A" = some (Jv.num 2) ∧
    some (Jv.num 2) ≠ some (jsIndex [Jv.num 1, Jv.num 2] 0) := by
  refine ⟨rfl, ?_⟩
  rw [show jsIndex [Jv.num 1, Jv.num 2] 0 = Jv.num 1 from rfl]
  simp

/-- C3 (amended): the Tabular Normalizer emits exactly one mapping per
input row, in input order (the k-th output is the normalization of the
k-th row); and provided no truthy header name occurs twice, each mapping
sends `headers[i]` to `row[i]` for every index with a truthy header, while
indices with falsy header names are skipped (the mapping's key sequence is
exactly the truthy headers).  On duplicate truthy headers the last
occurrence wins. -/
theorem normalizeResultSet_shape (rs : RawResultSet) :
    (normalizeResultSet rs).length = rs.rowSet.length
    ∧ (∀ k, k < rs.rowSet.length →
        (normalizeResultSet rs).getD k [] =
          normalizeRowGo (rs.rowSet.getD k []) 0 rs.headers [])
    ∧ (goodHeaders rs.headers →
        ∀ k, k < rs.rowSet.length → ∀ i, i < rs.headers.length →
          rs.headers.getD i "" ≠ "" →
          lookupKey ((normalizeResultSet rs).getD k []) (rs.headers.getD i "") =
            some (jsIndex (rs.rowSet.getD k []) i))
    ∧ (goodHeaders rs.headers →
        ∀ k, k < rs.rowSet.length →
          ((normalizeResultSet rs).getD k []).map Prod.fst =
            rs.headers.filter (fun h => h != "")) := by
  refine ⟨by simp [normalizeResultSet], normalizeResultSet_getD rs, ?_, ?_⟩
  · intro hnd k hk i hi hne
    rw [normalizeResultSet_getD rs k hk]
    exact normalizeRowGo_lookup (rs.rowSet.getD k []) rs.headers hnd i hi hne
  · intro hnd k hk
    rw [normalizeResultSet_getD rs k hk,
      normalizeRowGo_eq_filterMap (rs.rowSet.getD k []) rs.headers hnd,
      keys_filterMap_pickRow]

theorem normalizeResultSet_shape_witness :
    (normalizeResultSet ⟨"T", ["PLAYER_ID", "PLAYER_NAME"],
        [[Jv.num 2544, Jv.str "LeBron James"]]⟩).length = 1 ∧
    lookupKey ((normalizeResultSet ⟨"T", ["PLAYER_ID", "PLAYER_NAME"],
        [[Jv.num 2544, Jv.str "LeBron James"]]⟩).getD 0 []) "PLAYER_ID" =
      some (Jv.num 2544) := by
  obtain ⟨h1, -, h3, -⟩ := normalizeResultSet_shape
    ⟨"T", ["PLAYER_ID", "PLAYER_NAME"], [[Jv.num 2544, Jv.str "LeBron James"]]⟩
  refine ⟨h1, ?_⟩
  have := h3 (by decide) 0 (by decide) 0 (by decide) (by decide)
  rw [show (["PLAYER_ID", "PLAYER_NAME"].getD 0 "") = "PLAYER_ID" from rfl] at this
  rw [this]
  rfl

theorem camelReplaceGo_cons_ne (c : Char) (rest : List Char) (hc : c ≠ '_') :
    camelReplaceGo (c :: rest) = c :: camelReplaceGo rest := by
  rw [camelReplaceGo.eq_def]
  split
  next x heq => exact absurd heq (by simp)
  next x c2 rest2 heq =>
    injection heq with h1 h2
    exact absurd h1 hc
  next x c2 rest2 hno heq =>
    injection heq with h1 h2
    subst h1
    subst h2
    rfl

theorem camelReplaceGo_no_underscore (l : List Char) (h : ∀ c ∈ l, c ≠ '_') :
    camelReplaceGo l = l := by
  induction l with
  | nil => rfl
  | cons c rest ih =>
    rw [camelReplaceGo_cons_ne c rest (h c (List.mem_cons_self _ _))]
    rw [ih (fun d hd => h d (List.mem_cons_of_mem _ hd))]

theorem toLower_eq_underscore (d : Char) (h : Char.toLower d = '_') : d = '_' := by
  unfold Char.toLower at h
  by_cases hc : d.toNat ≥ 65 ∧ d.toNat ≤ 90
  · exfalso
    rw [if_pos hc] at h
    obtain ⟨h1, h2⟩ := hc
    generalize hg : d.toNat = n at h h1 h2
    interval_cases n <;> exact absurd h (by decide)
  · rwa [if_neg hc] at h

theorem mem_setKey (obj : List (String × α)) (k : String) (v : α)
    (p : String × α) (h : p ∈ setKey obj k v) : p ∈ obj ∨ p = (k, v) := by
  induction obj with
  | nil => simpa [setKey] using h
  | cons hd tl ih =>
    by_cases hk : hd.1 = k
    · simp only [setKey, if_pos hk, List.mem_cons] at h
      rcases h with h | h
      · exact Or.inr h
      · exact Or.inl (List.mem_cons_of_mem _ h)
    · simp only [setKey, if_neg hk, List.mem_cons] at h
      rcases h with h | h
      · exact Or.inl (List.mem_cons.mpr (Or.inl h))
      · rcases ih h with h' | h'
        · exact Or.inl (List.mem_cons_of_mem _ h')
        · exact Or.inr h'

theorem mem_foldl_setKey (ps : List (String × α)) :
    ∀ (acc : List (String × α)) (p : String × α),
      p ∈ ps.foldl (fun a q => setKey a q.1 q.2) acc → p ∈ acc ∨ p ∈ ps := by
  induction ps with
  | nil => intro acc p h; exact Or.inl h
  | cons q qs ih =>
    intro acc p h
    rcases ih (setKey acc q.1 q.2) p h with h' | h'
    · rcases mem_setKey acc q.1 q.2 p h' with h'' | h''
      · exact Or.inl h''
      · exact Or.inr (List.mem_cons.mpr (Or.inl (by rw [h''])))
    · exact Or.inr (List.mem_cons_of_mem _ h')

/-- C4: `toCamelCase` equals the spec algorithm — lowercase the whole
input, then delete each underscore directly followed by a letter and
uppercase that letter.  An input without underscores (e.g. `"AST"`) comes
back fully lowercased, an underscore-joined token like `"PLAYER_ID"`
becomes `"playerId"`; `normalizeKeys` rewrites every key through
`toCamelCase` with its value untouched (including null values), and is the
exact entrywise image on every mapping whose camelized keys are distinct. -/
theorem toCamelCase_spec :
    toCamelCase "AST" = "ast"
    ∧ toCamelCase "PLAYER_ID" = "playerId"
    ∧ (∀ s : String, (∀ c ∈ s.data, c ≠ '_') →
        toCamelCase s = ⟨s.data.map Char.toLower⟩)
    ∧ (∀ obj : JsObj, ∀ p ∈ normalizeKeys obj,
        ∃ q ∈ obj, p = (toCamelCase q.1, q.2))
    ∧ (∀ obj : JsObj, (obj.map (fun kv => toCamelCase kv.1)).Nodup →
        normalizeKeys obj = obj.map (fun kv => (toCamelCase kv.1, kv.2))) := by
  have hfold : ∀ obj : JsObj,
      normalizeKeys obj =
        (obj.map (fun kv => (toCamelCase kv.1, kv.2))).foldl
          (fun a p => setKey a p.1 p.2) [] := by
    intro obj
    rw [normalizeKeys, List.foldl_map]
  refine ⟨by rfl, by rfl, ?_, ?_, ?_⟩
  · intro s h
    have hlow : ∀ c ∈ s.data.map Char.toLower, c ≠ '_' := by
      intro c hc hcu
      obtain ⟨d, hd, hdc⟩ := List.mem_map.mp hc
      subst hcu
      exact h d hd (toLower_eq_underscore d hdc)
    exact congrArg String.mk (camelReplaceGo_no_underscore _ hlow)
  · intro obj p hp
    rw [hfold obj] at hp
    rcases mem_foldl_setKey _ [] p hp with h | h
    · simp at h
    · obtain ⟨q, hq, hqp⟩ := List.mem_map.mp h
      exact ⟨q, hq, hqp.symm⟩
  · intro obj hnd
    rw [hfold obj]
    have hkeys : ((obj.map (fun kv => (toCamelCase kv.1, kv.2))).map Prod.fst) =
        obj.map (fun kv => toCamelCase kv.1) := by
      rw [List.map_map]; rfl
    have := foldl_setKey_eq_append (obj.map (fun kv => (toCamelCase kv.1, kv.2))) []
      (by rw [hkeys]; exact hnd) (fun p _ => rfl)
    simpa using this

theorem toCamelCase_spec_witness :
    toCamelCase "AST" = "ast" ∧
    toCamelCase "ABC" = ⟨"ABC".data.map Char.toLower⟩ ∧
    normalizeKeys [("PLAYER_ID", Jv.num 2544), ("TEAM_NAME", Jv.null)] =
      [("PLAYER_ID", Jv.num 2544), ("TEAM_NAME", Jv.null)].map
        (fun kv => (toCamelCase kv.1, kv.2)) := by
  obtain ⟨h1, -, h3, -, h5⟩ := toCamelCase_spec
  refine ⟨h1, h3 "ABC" (by decide), h5 _ ?_⟩
  rw [show ([("PLAYER_ID", Jv.num 2544), ("TEAM_NAME", Jv.null)].map
    (fun kv => toCamelCase kv.1)) = ["playerId", "teamName"] from rfl]
  decide

/-- C6: the singular-record endpoints: on a zero-row result set the call
fails with an explicit not-found error naming the requested identifier
(never an empty/null record); on a non-empty result set it returns only
the processed first row, a single object, never an array. -/
theorem singular_record_endpoints (ι : Type) (schema : Jv → Except (ZodError ι) Jv)
    (playerId teamId : Int) (dataP dataT : List (String × List Jv)) :
    ((lookupKey dataP "CommonPlayerInfo").getD [] = [] →
       getCommonPlayerInfo schema playerId dataP =
         .error ("Player not found: " ++ toString playerId))
    ∧ (∀ r rest, (lookupKey dataP "CommonPlayerInfo").getD [] = r :: rest →
       getCommonPlayerInfo schema playerId dataP = .ok (singleRecordOf schema r))
    ∧ ((lookupKey dataT "TeamInfoCommon").getD [] = [] →
       getTeamInfoCommon schema teamId dataT =
         .error ("Team not found: " ++ toString teamId))
    ∧ (∀ r rest, (lookupKey dataT "TeamInfoCommon").getD [] = r :: rest →
       getTeamInfoCommon schema teamId dataT = .ok (singleRecordOf schema r)) := by
  refine ⟨?_, ?_, ?_, ?_⟩
  · intro h
    unfold getCommonPlayerInfo
    rw [h]
    rfl
  · intro r rest h
    unfold getCommonPlayerInfo
    rw [h]
    rfl
  · intro h
    unfold getTeamInfoCommon
    rw [h]
    rfl
  · intro r rest h
    unfold getTeamInfoCommon
    rw [h]
    rfl

/-- A schema used to witness C6: accepts everything unchanged. -/
def witnessSchemaC6 : Jv → Except (ZodError Unit) Jv := fun v => .ok v

theorem singular_record_endpoints_witness :
    getCommonPlayerInfo witnessSchemaC6 2544 [("CommonPlayerInfo", [])] =
      .error ("Player not found: " ++ toString (2544 : Int)) ∧
    getCommonPlayerInfo witnessSchemaC6 2544
        [("CommonPlayerInfo", [Jv.obj [("PERSON_ID", Jv.num 2544)]])] =
      .ok (singleRecordOf witnessSchemaC6 (Jv.obj [("PERSON_ID", Jv.num 2544)])) ∧
    getTeamInfoCommon witnessSchemaC6 1610612747 [] =
      .error ("Team not found: " ++ toString (1610612747 : Int)) := by
  obtain ⟨h1, h2, -, -⟩ := singular_record_endpoints Unit witnessSchemaC6 2544 1610612747
    [("CommonPlayerInfo", [])] [("CommonPlayerInfo", [])]
  obtain ⟨-, h2', -, -⟩ := singular_record_endpoints Unit witnessSchemaC6 2544 1610612747
    [("CommonPlayerInfo", [Jv.obj [("PERSON_ID", Jv.num 2544)]])] []
  obtain ⟨-, -, h3, -⟩ := singular_record_endpoints Unit witnessSchemaC6 2544 1610612747
    [] []
  exact ⟨h1 rfl, h2' _ [] rfl, h3 rfl⟩

/-- C7: the identifier validators reject bad inputs (before any network
call — they are pure and run first in every facade method): zero,
negative or non-integer player/team IDs throw while every positive
integer is accepted; a game ID not consisting of exactly 10 digits
throws; the season `"2024-26"` (suffix must be `(startYear + 1) % 100`)
throws for every host-clock year while `"2024-25"` is accepted from clock
year 2023 on; and a date string failing the `YYYY-MM-DD` pattern throws. -/
theorem validators_reject_before_network :
    (∀ q : ℚ, q ≤ 0 ∨ q.den ≠ 1 →
       (∃ m, validatePlayerId q = .error m) ∧ (∃ m, validateTeamId q = .error m))
    ∧ (∀ n : ℤ, 0 < n →
       validatePlayerId (n : ℚ) = .ok () ∧ validateTeamId (n : ℚ) = .ok ())
    ∧ (∀ s : String, ¬(s.data.length = 10 ∧ s.data.all Char.isDigit = true) →
       ∃ m, validateGameId s = .error m)
    ∧ (∀ currentYear : Nat,
       (∃ m, validateSeason currentYear "2024-26" = .error m) ∧
       (2023 ≤ currentYear → validateSeason currentYear "2024-25" = .ok ()))
    ∧ (∀ s : String, datePatternParts s = none → ∃ m, validateDate s = .error m) := by
  refine ⟨?_, ?_, ?_, ?_, ?_⟩
  · intro q hq
    have hcond : q.den ≠ 1 ∨ q ≤ 0 := hq.symm
    constructor
    · exact ⟨_, by rw [validatePlayerId, if_pos hcond]⟩
    · exact ⟨_, by rw [validateTeamId, if_pos hcond]⟩
  · intro n hn
    have hden : ((n : ℚ)).den = 1 := Rat.den_intCast n
    have hpos : ¬((n : ℚ) ≤ 0) := by
      push_neg
      exact_mod_cast hn
    have hcond : ¬(((n : ℚ)).den ≠ 1 ∨ (n : ℚ) ≤ 0) := by
      push_neg
      exact ⟨hden, lt_of_not_le hpos⟩
    constructor
    · rw [validatePlayerId, if_neg hcond]
    · rw [validateTeamId, if_neg hcond]
  · intro s hs
    exact ⟨_, by rw [validateGameId, if_neg (by simpa using hs)]⟩
  · intro currentYear
    constructor
    · have hrej : validateSeason currentYear "2024-26" =
          .error ("Invalid season: " ++ "2024-26" ++ ". End year suffix should be " ++
            pad2 ((2024 + 1) % 100)) := by
        unfold validateSeason
        rw [show seasonPatternParts "2024-26" = some (2024, 26) from by decide]
        rfl
      exact ⟨_, hrej⟩
    · intro hcy
      unfold validateSeason
      rw [show seasonPatternParts "2024-25" = some (2024, 25) from by decide]
      simp only []
      rw [if_neg (by decide), if_neg (by decide), if_neg (by omega)]
  · intro s hs
    exact ⟨_, by unfold validateDate; rw [hs]⟩

/-- The non-integer rational one half, written with explicit numerator
and denominator so that it evaluates by projection. -/
def halfQ : ℚ := ⟨1, 2, by decide, Nat.coprime_one_left 2⟩

theorem validators_reject_before_network_witness :
    (∃ m, validatePlayerId 0 = .error m) ∧
    (∃ m, validateTeamId (-3) = .error m) ∧
    (∃ m, validatePlayerId halfQ = .error m) ∧
    validatePlayerId ((7 : ℤ) : ℚ) = .ok () ∧
    validateTeamId ((1610612747 : ℤ) : ℚ) = .ok () ∧
    (∃ m, validateGameId "00224" = .error m) ∧
    (∃ m, validateSeason 2026 "2024-26" = .error m) ∧
    validateSeason 2026 "2024-25" = .ok () ∧
    (∃ m, validateDate "2024/01/01" = .error m) := by
  obtain ⟨h1, h2, h3, h4, h5⟩ := validators_reject_before_network
  refine ⟨(h1 0 (Or.inl (by norm_num))).1,
    (h1 (-3) (Or.inl (by norm_num))).2,
    (h1 halfQ (Or.inr (by decide))).1,
    (h2 7 (by norm_num)).1,
    (h2 1610612747 (by norm_num)).2,
    h3 "00224" (by decide),
    (h4 2026).1,
    (h4 2026).2 (by norm_num),
    h5 "2024/01/01" (by decide)⟩

theorem jsCoalesce_obj (l : JsObj) (d : Jv) : jsCoalesce (Jv.obj l) d = Jv.obj l := rfl

theorem jsCoalesce_arr (l : List Jv) (d : Jv) : jsCoalesce (Jv.arr l) d = Jv.arr l := rfl

/-- C8: the box-score adapter never throws on a missing container: when
the raw payload has no (or a nullish) `boxScoreTraditional` key, the
player-stats list comes back empty; when both side containers are present
with player arrays, the player-stats sequence passed through the lenient
validator is the home team's normalized players followed by the away
team's (home first), each flattened by `normalizeV3PlayerStats` — and the
validator returns that sequence itself or its elementwise parse. -/
theorem boxscore_adapter_shape (ι : Type) (schema : Jv → Except (ZodError ι) Jv)
    (rawData : Jv) :
    ((jsGet rawData "boxScoreTraditional" = Jv.undef ∨
      jsGet rawData "boxScoreTraditional" = Jv.null) →
       boxScorePlayerStats schema rawData = some [])
    ∧ (∀ bsf htf atf hp ap,
        jsGet rawData "boxScoreTraditional" = Jv.obj bsf →
        jsGet (Jv.obj bsf) "homeTeam" = Jv.obj htf →
        jsGet (Jv.obj bsf) "awayTeam" = Jv.obj atf →
        jsGet (Jv.obj htf) "players" = Jv.arr hp →
        jsGet (Jv.obj atf) "players" = Jv.arr ap →
        boxScorePlayerStats schema rawData =
          some ((parseArraySafe schema
            (hp.map (fun p => normalizeV3PlayerStats p (Jv.obj htf)) ++
             ap.map (fun p => normalizeV3PlayerStats p (Jv.obj atf))) false).result))
    ∧ (∀ l : List Jv,
        (parseArraySafe schema l false).result = l ∨
        List.Forall₂ (fun x y => schema x = .ok y) l
          (parseArraySafe schema l false).result) := by
  refine ⟨?_, ?_, ?_⟩
  · intro h
    simp only [boxScorePlayerStats]
    rcases h with h | h <;> rw [h] <;> rfl
  · intro bsf htf atf hp ap hbs hht hat hhp hap
    simp only [boxScorePlayerStats]
    rw [hbs, jsCoalesce_obj, hht, jsCoalesce_obj, hat, jsCoalesce_obj,
      hhp, jsCoalesce_arr, hap, jsCoalesce_arr]
  · intro l
    cases hm : mapParse schema l with
    | error e => exact Or.inl (by simp [parseArraySafe, hm])
    | ok ys =>
      exact Or.inr (by simpa [parseArraySafe, hm] using mapParse_ok_forall₂ schema l ys hm)

/-- A schema used to witness C8: accepts everything unchanged. -/
def witnessSchemaC8 : Jv → Except (ZodError Unit) Jv := fun v => .ok v

theorem boxscore_adapter_shape_witness :
    boxScorePlayerStats witnessSchemaC8 (Jv.obj [("gameId", Jv.str "0022400001")]) =
      some [] ∧
    boxScorePlayerStats witnessSchemaC8
        (Jv.obj [("boxScoreTraditional", Jv.obj
          [("homeTeam", Jv.obj [("teamId", Jv.num 1),
             ("players", Jv.arr [Jv.obj [("personId", Jv.num 10)]])]),
           ("awayTeam", Jv.obj [("teamId", Jv.num 2),
             ("players", Jv.arr [])])])]) =
      some ((parseArraySafe witnessSchemaC8
        ([Jv.obj [("personId", Jv.num 10)]].map (fun p => normalizeV3PlayerStats p
          (Jv.obj [("teamId", Jv.num 1),
            ("players", Jv.arr [Jv.obj [("personId", Jv.num 10)]])]))) false).result) := by
  obtain ⟨h1, -, -⟩ := boxscore_adapter_shape Unit witnessSchemaC8
    (Jv.obj [("gameId", Jv.str "0022400001")])
  obtain ⟨-, h2, -⟩ := boxscore_adapter_shape Unit witnessSchemaC8
    (Jv.obj [("boxScoreTraditional", Jv.obj
      [("homeTeam", Jv.obj [("teamId", Jv.num 1),
         ("players", Jv.arr [Jv.obj [("personId", Jv.num 10)]])]),
       ("awayTeam", Jv.obj [("teamId", Jv.num 2), ("players", Jv.arr [])])])])
  refine ⟨h1 (Or.inl rfl), ?_⟩
  have := h2 _ _ _ [Jv.obj [("personId", Jv.num 10)]] [] rfl rfl rfl rfl rfl
  rw [this]
  rw [List.map_nil, List.append_nil]

/-- C9 (implicit): the request URL built by `fetchStats`/`buildStatsUrl`
contains exactly the parameters whose value is neither undefined, null
nor the empty string, sorted by key under the comparator order; on
key-distinct parameter maps the query — and hence the URL — is invariant
under permutation of the supplied parameters. -/
theorem buildStatsQuery_spec (params : List (String × ParamValue)) :
    (∀ k v, (k, v) ∈ buildStatsQuery params ↔
       ∃ raw, (k, raw) ∈ params ∧ keepParam raw = true ∧ v = paramToString raw)
    ∧ List.Sorted paramKeyLe (buildStatsQuery params)
    ∧ ((params.map Prod.fst).Nodup → ∀ params', params.Perm params' →
        buildStatsQuery params = buildStatsQuery params' ∧
        ∀ endpoint, buildStatsUrl endpoint params = buildStatsUrl endpoint params') := by
  refine ⟨mem_buildStatsQuery_iff params, sorted_buildStatsQuery params, ?_⟩
  intro hnd params' hp
  have heq := buildStatsQuery_perm_invariant params params' hnd hp
  exact ⟨heq, fun endpoint => by rw [buildStatsUrl, buildStatsUrl, heq]⟩

theorem buildStatsQuery_spec_witness :
    ("LeagueID", "00") ∈ buildStatsQuery
      [("Season", .str "2024-25"), ("LeagueID", .str "00"), ("DateFrom", .str "")] ∧
    buildStatsQuery
        [("Season", .str "2024-25"), ("LeagueID", .str "00"), ("DateFrom", .str "")] =
      buildStatsQuery
        [("DateFrom", .str ""), ("LeagueID", .str "00"), ("Season", .str "2024-25")] ∧
    buildStatsUrl "scoreboardv2"
        [("Season", .str "2024-25"), ("LeagueID", .str "00"), ("DateFrom", .str "")] =
      buildStatsUrl "scoreboardv2"
        [("DateFrom", .str ""), ("LeagueID", .str "00"), ("Season", .str "2024-25")] := by
  obtain ⟨h1, -, h3⟩ := buildStatsQuery_spec
    [("Season", .str "2024-25"), ("LeagueID", .str "00"), ("DateFrom", .str "")]
  have hperm : ([("Season", ParamValue.str "2024-25"), ("LeagueID", .str "00"),
      ("DateFrom", .str "")] : List (String × ParamValue)).Perm
      [("DateFrom", .str ""), ("LeagueID", .str "00"), ("Season", .str "2024-25")] := by
    have hrev : ([("Season", ParamValue.str "2024-25"), ("LeagueID", .str "00"),
        ("DateFrom", .str "")] : List (String × ParamValue)).reverse =
        [("DateFrom", .str ""), ("LeagueID", .str "00"), ("Season", .str "2024-25")] := rfl
    have h := (List.reverse_perm ([("Season", ParamValue.str "2024-25"),
      ("LeagueID", .str "00"), ("DateFrom", .str "")] : List (String × ParamValue))).symm
    rwa [hrev] at h
  obtain ⟨hq, hu⟩ := h3 (by simp) _ hperm
  exact ⟨(h1 "LeagueID" "00").mpr ⟨.str "00", by simp, rfl, rfl⟩, hq, hu "scoreboardv2"⟩

-- The pre-fetch phase of `getLeagueGameFinder` (src/api.ts).

/-- The caller-supplied `GameFinderOptions` (src/types.ts): every field is
optional; identifiers are numbers, the rest strings. -/
structure GameFinderOptions where
  playerOrTeam : Option String
  season : Option String
  seasonType : Option String
  leagueId : Option String
  teamId : Option Int
  playerId : Option Int
  vsTeamId : Option Int
  vsConference : Option String
  vsDivision : Option String
  outcome : Option String
  location : Option String
  dateFrom : Option String
  dateTo : Option String

/-- The `x ?? ''` default for an optional numeric identifier. -/
def optIdParam : Option Int → ParamValue
  | some n => .num n
  | none => .str ""

/-- The `x ?? ''` default for an optional string option. -/
def optStrParam : Option String → ParamValue
  | some s => .str s
  | none => .str ""

/-- The parameter map `getLeagueGameFinder` hands to `_fetchStats`, with
the destructuring defaults `playerOrTeam = 'T'`,
`seasonType = SeasonType.REGULAR` (`'Regular Season'`),
`leagueId = LeagueID.NBA` (`'00'`), `Season: season ?? ''`, the `?? ''`
identifier defaults, and the literal always-empty filter tail. -/
def leagueGameFinderParams (o : GameFinderOptions) : List (String × ParamValue) :=
  [ ("PlayerOrTeam", .str (o.playerOrTeam.getD "T")),
    ("Season", .str (o.season.getD "")),
    ("SeasonType", .str (o.seasonType.getD "Regular Season")),
    ("LeagueID", .str (o.leagueId.getD "00")),
    ("TeamID", optIdParam o.teamId),
    ("PlayerID", optIdParam o.playerId),
    ("VsTeamID", optIdParam o.vsTeamId),
    ("VsConference", optStrParam o.vsConference),
    ("VsDivision", optStrParam o.vsDivision),
    ("Outcome", optStrParam o.outcome),
    ("Location", optStrParam o.location),
    ("DateFrom", optStrParam o.dateFrom),
    ("DateTo", optStrParam o.dateTo),
    ("Conference", .str ""), ("Division", .str ""), ("GameSegment", .str ""),
    ("Period", .str ""), ("ShotClockRange", .str ""), ("LastNGames", .str ""),
    ("Month", .str ""), ("SeasonSegment", .str ""), ("DraftYear", .str ""),
    ("DraftPick", .str ""), ("College", .str ""), ("Country", .str ""),
    ("Height", .str ""), ("Weight", .str ""), ("StarterBench", .str ""),
    ("PlayerExperience", .str ""), ("PlayerPosition", .str ""),
    ("EqAST", .str ""), ("EqBLK", .str ""), ("EqDD", .str ""),
    ("EqDREB", .str ""), ("EqFG3A", .str ""), ("EqFG3M", .str ""),
    ("EqFG3_PCT", .str ""), ("EqFGA", .str ""), ("EqFGM", .str ""),
    ("EqFG_PCT", .str ""), ("EqFTA", .str ""), ("EqFTM", .str ""),
    ("EqFT_PCT", .str ""), ("EqMINUTES", .str ""), ("EqOREB", .str ""),
    ("EqPF", .str ""), ("EqPTS", .str ""), ("EqREB", .str ""),
    ("EqSTL", .str ""), ("EqTD", .str ""), ("EqTOV", .str ""),
    ("GtAST", .str ""), ("GtBLK", .str ""), ("GtDD", .str ""),
    ("GtDREB", .str ""), ("GtFG3A", .str ""), ("GtFG3M", .str ""),
    ("GtFG3_PCT", .str ""), ("GtFGA", .str ""), ("GtFGM", .str ""),
    ("GtFG_PCT", .str ""), ("GtFTA", .str ""), ("GtFTM", .str ""),
    ("GtFT_PCT", .str ""), ("GtMINUTES", .str ""), ("GtOREB", .str ""),
    ("GtPF", .str ""), ("GtPTS", .str ""), ("GtREB", .str ""),
    ("GtSTL", .str ""), ("GtTD", .str ""), ("GtTOV", .str ""),
    ("LtAST", .str ""), ("LtBLK", .str ""), ("LtDD", .str ""),
    ("LtDREB", .str ""), ("LtFG3A", .str ""), ("LtFG3M", .str ""),
    ("LtFG3_PCT", .str ""), ("LtFGA", .str ""), ("LtFGM", .str ""),
    ("LtFG_PCT", .str ""), ("LtFTA", .str ""), ("LtFTM", .str ""),
    ("LtFT_PCT", .str ""), ("LtMINUTES", .str ""), ("LtOREB", .str ""),
    ("LtPF", .str ""), ("LtPTS", .str ""), ("LtREB", .str ""),
    ("LtSTL", .str ""), ("LtTD", .str ""), ("LtTOV", .str "") ]

/-- Everything `getLeagueGameFinder` does before its network call: only
`dateFrom`/`dateTo` are validated (each only when supplied); the season —
unvalidated — and the other options are assembled into the request
parameters for the `leaguegamefinder` endpoint. -/
def getLeagueGameFinderRequest (o : GameFinderOptions) :
    Except String (String × List (String × ParamValue)) := do
  match o.dateFrom with
  | some d => validateDate d
  | none => pure ()
  match o.dateTo with
  | some d => validateDate d
  | none => pure ()
  pure ("leaguegamefinder", leagueGameFinderParams o)

/-- C10 counterexample: calling `getLeagueGameFinder` with the
format-consistent pre-1946 season `"1945-46"` is not rejected — the
request is built and the season string survives into the sorted query of
the URL that is fetched — although `validateSeason` (which this endpoint
never calls) rejects that season. -/
theorem getLeagueGameFinder_forwards_pre1946_season :
    getLeagueGameFinderRequest
        ⟨none, some "1945-46", none, none, none, none, none, none, none,
         none, none, none, none⟩ =
      .ok ("leaguegamefinder", leagueGameFinderParams
        ⟨none, some "1945-46", none, none, none, none, none, none, none,
         none, none, none, none⟩) ∧
    ("Season", "1945-46") ∈ buildStatsQuery (leagueGameFinderParams
      ⟨none, some "1945-46", none, none, none, none, none, none, none,
       none, none, none, none⟩) ∧
    validateSeason 2026 "1945-46" =
      .error ("Season " ++ "1945-46" ++ " is before NBA founding year (1946)") := by
  refine ⟨rfl, ?_, ?_⟩
  · exact (mem_buildStatsQuery_iff _ "Season" "1945-46").mpr
      ⟨.str "1945-46", by decide, rfl, rfl⟩
  · exact validateSeason_lower_bound 2026 "1945-46" 1945 46
      (by decide) (by decide) (by decide)

/-- C10 (amended): `validateSeason` enforces the unstated 1946 lower
bound — an internally consistent season string with start year below 1946
is rejected for every host-clock year, so every facade endpoint that
validates its season rejects it before any network call.  The exception
the code contains: `getLeagueGameFinder` never calls `validateSeason`; on
any options with no dates to check it builds its request without failing
and forwards the supplied season string into the parameters. -/
theorem validateSeason_pre1946 :
    (∀ (currentYear : Nat) (s : String) (startYear endSuffix : Nat),
       seasonPatternParts s = some (startYear, endSuffix) →
       endSuffix = (startYear + 1) % 100 →
       startYear < 1946 →
       validateSeason currentYear s =
         .error ("Season " ++ s ++ " is before NBA founding year (1946)"))
    ∧ (∀ o : GameFinderOptions, o.dateFrom = none → o.dateTo = none →
       getLeagueGameFinderRequest o =
         .ok ("leaguegamefinder", leagueGameFinderParams o) ∧
       ("Season", ParamValue.str (o.season.getD "")) ∈ leagueGameFinderParams o) := by
  constructor
  · exact validateSeason_lower_bound
  · intro o h1 h2
    constructor
    · unfold getLeagueGameFinderRequest
      rw [h1, h2]
      rfl
    · exact List.mem_cons_of_mem _ (List.mem_cons_self _ _)

theorem validateSeason_pre1946_witness :
    validateSeason 2026 "1945-46" =
      .error ("Season " ++ "1945-46" ++ " is before NBA founding year (1946)") ∧
    getLeagueGameFinderRequest
        ⟨none, some "1945-46", none, none, none, none, none, none, none,
         none, none, none, none⟩ =
      .ok ("leaguegamefinder", leagueGameFinderParams
        ⟨none, some "1945-46", none, none, none, none, none, none, none,
         none, none, none, none⟩) := by
  obtain ⟨h1, h2⟩ := validateSeason_pre1946
  exact ⟨h1 2026 "1945-46" 1945 46 (by decide) (by decide) (by decide),
    (h2 ⟨none, some "1945-46", none, none, none, none, none, none, none,
      none, none, none, none⟩ rfl rfl).1⟩
